import Mathlib

/-!
Verification of the mwdh parallel compression pipeline.

This file gives a shallow embedding, in Lean, of the core logic of the
mwdh archiver (src/lib.rs, src/compression/zstd.rs, src/compression/zip.rs)
and proves the specified properties about it.

Modelling conventions:
* Machine integers (`u64`, `usize`) are modelled as `Nat`.  All quantities
  involved (file sizes, byte counters) are far below `2^64`, and Rust's
  debug build aborts on overflow, so wrap-around is not modelled.
* File contents are `List Nat` (byte lists).  The filesystem is modelled by
  two functions: `metaLen : String → Nat` for `std::fs::metadata(..).len()`
  and `content : String → List Nat` for reading a file's bytes.
* The external zstd codec (the `zstd` crate) is modelled by a `ZstdCodec`
  structure: an abstract frame encoder/decoder that round-trips and never
  produces an empty frame (a real zstd frame starts with a 4-byte magic
  number).  The external `tar` crate's 512-byte GNU header construction is
  modelled by an abstract function `hdr : String → Nat → List Nat`.
* Scratch file paths `temp_dir/batch_<idx>.zst` are modelled by the
  structure `ScratchPath` (directory plus batch index); `ScratchPath.render`
  produces the literal path string.
-/

namespace Mwdh

/-- Progress events sent over the progress channel (`ProgressMessage` in
src/lib.rs). -/
inductive ProgressMessage where
  | StartScanning
  | FileFound (path : String)
  | StartCompression (total : Nat)
  | Compressing (workerId : Nat) (label : String)
  | FileCompressed (workerId : Nat) (label : String)
  | StartWriting (total : Nat)
  | WritingFile (label : String)
  | Complete (size : Nat)
deriving DecidableEq, Repr

/-- A scanned input file (`FileToCompress` in src/lib.rs): filesystem path
and slash-joined archive name. -/
structure FileToCompress where
  src_path : String
  file_name : String
deriving DecidableEq, Repr

/-- The archive configuration fields consumed by the compression core
(`ArchiveOptions` in src/lib.rs; CLI-only fields omitted). -/
structure ArchiveOptions where
  world_name : String
  include_nether : Bool
  include_end : Bool
  include_overworld : Bool
  threads : Nat
  compression_level : Int
  is_bukkit : Bool
  memory_limit_mb : Nat
deriving DecidableEq, Repr

/-! ### Memory accountant (src/compression/zstd.rs, lines 273-287) -/

/-- The accountant's byte limit: `args.memory_limit_mb * 1024 * 1024`
(src/compression/zstd.rs line 273). -/
def limitBytes (memory_limit_mb : Nat) : Nat :=
  memory_limit_mb * 1024 * 1024

/-- One `RequestAllocation(size)` message handled by the memory manager
thread (src/compression/zstd.rs lines 280-285): if `current + size ≤ limit`
the counter is incremented and the reply is `true`, otherwise the counter is
unchanged and the reply is `false`. -/
def requestAllocation (globalMemoryLimitBytes currentUsage size : Nat) :
    Bool × Nat :=
  if currentUsage + size ≤ globalMemoryLimitBytes then
    (true, currentUsage + size)
  else
    (false, currentUsage)

/-- The memory manager thread's loop: handle a list of allocation requests
in arrival order, starting from counter value `current`. -/
def memManagerRun (globalMemoryLimitBytes : Nat) :
    List Nat → Nat → Nat
  | [], current => current
  | size :: rest, current =>
      memManagerRun globalMemoryLimitBytes rest
        (requestAllocation globalMemoryLimitBytes current size).2

/-! ### Dynamic batching (src/compression/zstd.rs, lines 329-395) -/

/-- Minimum batch size of 64 MiB (src/compression/zstd.rs line 345). -/
def MIN_BATCH_SIZE_BYTES : Nat := 64 * 1024 * 1024

/-- Maximum batch size of 512 MiB (src/compression/zstd.rs line 346). -/
def MAX_BATCH_SIZE_BYTES : Nat := 512 * 1024 * 1024

/-- The dynamic batch threshold (src/compression/zstd.rs lines 348-360).
`checked_div` never fails because `num_threads = threads.max(1) ≥ 1`, so the
`unwrap_or` branch is dead and division is exact Nat division. -/
def batchThreshold (totalUncompressedSize threads : Nat) : Nat :=
  let numThreads := max threads 1
  let targetSizePerThread := totalUncompressedSize / numThreads
  min (min (max targetSizePerThread MIN_BATCH_SIZE_BYTES) MAX_BATCH_SIZE_BYTES)
    (max totalUncompressedSize 1)

/-- Threshold formula as worded by the spec:
`clamp(total_uncompressed / threads, MIN, MAX).min(max(total_uncompressed, 1))`.
Written from the spec's words for comparison against `batchThreshold`. -/
def spec_batch_threshold (totalUncompressedSize threads : Nat) : Nat :=
  min
    (min (max (totalUncompressedSize / threads) MIN_BATCH_SIZE_BYTES)
      MAX_BATCH_SIZE_BYTES)
    (max totalUncompressedSize 1)

/-- A work unit batch (`BatchToCompress` in src/compression/zstd.rs). -/
structure BatchToCompress where
  files : List FileToCompress
  total_size : Nat
deriving DecidableEq, Repr

/-- The metadata-gathering pass (src/compression/zstd.rs lines 332-342):
pair every scanned file with its size. -/
def filesWithSize (metaLen : String → Nat) (allFiles : List FileToCompress) :
    List (FileToCompress × Nat) :=
  allFiles.map (fun f => (f, metaLen f.src_path))

/-- `total_uncompressed_size` (src/compression/zstd.rs lines 334-341). -/
def totalUncompressedSize (metaLen : String → Nat)
    (allFiles : List FileToCompress) : Nat :=
  ((filesWithSize metaLen allFiles).map Prod.snd).sum

/-- The batching loop (src/compression/zstd.rs lines 366-395): push each file
into the current batch, add its size, and emit the batch as soon as the
cumulative size reaches the threshold; the final non-empty batch is emitted
unconditionally. -/
def batchLoop (batch_threshold : Nat) :
    List (FileToCompress × Nat) → List FileToCompress → Nat → Nat →
      List (Nat × BatchToCompress)
  | [], current_batch, current_batch_size, batch_index =>
      if current_batch = [] then []
      else [(batch_index, ⟨current_batch, current_batch_size⟩)]
  | (file_info, size) :: rest, current_batch, current_batch_size, batch_index =>
      let cb := current_batch ++ [file_info]
      let cs := current_batch_size + size
      if batch_threshold ≤ cs ∧ cb ≠ [] then
        (batch_index, ⟨cb, cs⟩) :: batchLoop batch_threshold rest [] 0 (batch_index + 1)
      else
        batchLoop batch_threshold rest cb cs batch_index

/-- The full batching step of `generate_zstd_parallel`
(src/compression/zstd.rs lines 329-395). -/
def generateBatches (metaLen : String → Nat) (allFiles : List FileToCompress)
    (threads : Nat) : List (Nat × BatchToCompress) :=
  batchLoop (batchThreshold (totalUncompressedSize metaLen allFiles) threads)
    (filesWithSize metaLen allFiles) [] 0 0

/-- Concatenation of the files of a list of emitted work units. -/
def joinFiles (batches : List (Nat × BatchToCompress)) : List FileToCompress :=
  (batches.map (fun ib => ib.2.files)).flatten

/-! ### Worker compression (src/compression/zstd.rs, lines 451-554) -/

/-- Abstract model of the external zstd codec: a frame encoder and decoder.
A zstd frame round-trips and is never empty (every frame starts with the
4-byte magic number). -/
structure ZstdCodec where
  encode : Int → List Nat → List Nat
  decode : Int → List Nat → List Nat
  decode_encode : ∀ level plain, decode level (encode level plain) = plain
  encode_ne_nil : ∀ level plain, encode level plain ≠ []

/-- A concrete instance of `ZstdCodec` (shows the interface is satisfiable
and serves as the codec of concrete evaluations). -/
def simpleCodec : ZstdCodec where
  encode := fun _ plain => 0 :: plain
  decode := fun _ data => data.drop 1
  decode_encode := fun _ _ => rfl
  encode_ne_nil := fun _ _ h => List.cons_ne_nil _ _ h

/-- Tar block size (src/compression/zstd.rs line 504). -/
def TAR_BLOCK_SIZE : Nat := 512

/-- Zero padding appended after a file's bytes to reach a 512-byte block
boundary: `(512 - len % 512) % 512` (src/compression/zstd.rs line 507); the
code skips the write when the padding is 0, which equals writing an empty
list. -/
def tarPaddingLen (len : Nat) : Nat :=
  (TAR_BLOCK_SIZE - len % TAR_BLOCK_SIZE) % TAR_BLOCK_SIZE

/-- The tar bytes one file contributes inside a batch frame
(src/compression/zstd.rs lines 486-511): a GNU header built from the archive
name and the file's metadata length (`hdr` models the external tar crate's
header construction), the file's bytes, then zero padding. -/
def fileTarBytes (hdr : String → Nat → List Nat) (metaLen : String → Nat)
    (content : String → List Nat) (f : FileToCompress) : List Nat :=
  hdr f.file_name (metaLen f.src_path) ++ content f.src_path ++
    List.replicate (tarPaddingLen (metaLen f.src_path)) 0

/-- The plaintext fed into the zstd encoder for one batch: the concatenation
of the per-file tar records, in batch order (src/compression/zstd.rs lines
482-515).  No tar end-of-archive blocks are appended here. -/
def batchPlaintext (hdr : String → Nat → List Nat) (metaLen : String → Nat)
    (content : String → List Nat) (files : List FileToCompress) : List Nat :=
  (files.map (fileTarBytes hdr metaLen content)).flatten

/-- A scratch file path `temp_dir/batch_<idx>.zst`, modelled structurally
(directory plus batch index); `render` gives the literal string. -/
structure ScratchPath where
  dir : String
  batchIdx : Nat
deriving DecidableEq, Repr

/-- The literal path string `temp_dir.join(format("batch_{}.zst", idx))`
(src/compression/zstd.rs lines 469, 525, 546). -/
def ScratchPath.render (p : ScratchPath) : String :=
  p.dir ++ "/batch_" ++ Nat.repr p.batchIdx ++ ".zst"

/-- Where a finished batch frame lives (`CompressedDataLocation` in
src/compression/zstd.rs). -/
inductive CompressedDataLocation where
  | Memory (data : List Nat)
  | Disk (path : ScratchPath)
deriving DecidableEq, Repr

/-- A worker's result unit (`CompressedFileData` in src/compression/zstd.rs). -/
structure CompressedFileData where
  file_name : String
  data : CompressedDataLocation
deriving DecidableEq, Repr

/-- Everything observable about one call of `compress_batch_to_zstd_frame`:
the result unit, the scratch files written, the allocation request sent (if
any), and the accountant counter after the request was handled. -/
structure WorkerStep where
  result : CompressedFileData
  scratchWrites : List (ScratchPath × List Nat)
  request : Option Nat
  acct : Nat
deriving DecidableEq, Repr

/-- `compress_batch_to_zstd_frame` (src/compression/zstd.rs lines 451-554).
The sink decision: batches whose uncompressed `total_size` exceeds the
global memory limit are compressed directly to `temp_dir/batch_<idx>.zst`;
otherwise the frame is built in memory and a `RequestAllocation` for its
exact compressed length is sent to the accountant.

The worker reads the accountant's reply with `try_recv().unwrap_or(false)`;
`replyDelivered` models whether the reply had arrived at that moment (the
try-receive caveat of the source: a reply not yet available is treated as a
denial).  The observed approval is `replyDelivered && approved`. -/
def compress_batch_to_zstd_frame (c : ZstdCodec)
    (hdr : String → Nat → List Nat) (metaLen : String → Nat)
    (content : String → List Nat) (temp_dir : String)
    (batch : BatchToCompress) (batch_idx : Nat) (compression_level : Int)
    (globalMemoryLimitBytes : Nat) (acct : Nat) (replyDelivered : Bool) :
    WorkerStep :=
  let frame :=
    c.encode compression_level (batchPlaintext hdr metaLen content batch.files)
  let batch_name := "Batch " ++ Nat.repr batch_idx
  let temp_file_path : ScratchPath := ⟨temp_dir, batch_idx⟩
  if globalMemoryLimitBytes < batch.total_size then
    { result := ⟨batch_name, .Disk temp_file_path⟩,
      scratchWrites := [(temp_file_path, frame)],
      request := none,
      acct := acct }
  else
    let compressed_size := frame.length
    let alloc := requestAllocation globalMemoryLimitBytes acct compressed_size
    if replyDelivered && alloc.1 then
      { result := ⟨batch_name, .Memory frame⟩,
        scratchWrites := [],
        request := some compressed_size,
        acct := alloc.2 }
    else
      { result := ⟨batch_name, .Disk temp_file_path⟩,
        scratchWrites := [(temp_file_path, frame)],
        request := some compressed_size,
        acct := alloc.2 }

/-- A canonical run of the worker pool over the emitted work units, in index
order, threading the accountant counter: produces the result units (each
tagged with its work unit's index, src/compression/zstd.rs line 320), the
scratch store, and the final accountant counter.  Worker interleaving only
permutes the order in which the accountant sees the (at most one per batch)
requests; properties proved below are per-request or hold for every counter
value, so the canonical order loses no generality. -/
def runWorkers (c : ZstdCodec) (hdr : String → Nat → List Nat)
    (metaLen : String → Nat) (content : String → List Nat)
    (temp_dir : String) (compression_level : Int)
    (globalMemoryLimitBytes : Nat) (replyDelivered : Nat → Bool) :
    List (Nat × BatchToCompress) → Nat →
      List (Nat × CompressedFileData) × List (ScratchPath × List Nat) × Nat
  | [], acct => ([], [], acct)
  | (batch_idx, batch) :: rest, acct =>
      let step := compress_batch_to_zstd_frame c hdr metaLen content temp_dir
        batch batch_idx compression_level globalMemoryLimitBytes acct
        (replyDelivered batch_idx)
      let tail := runWorkers c hdr metaLen content temp_dir compression_level
        globalMemoryLimitBytes replyDelivered rest step.acct
      ((batch_idx, step.result) :: tail.1, step.scratchWrites ++ tail.2.1,
        tail.2.2)

/-! ### Assembly (src/compression/zstd.rs, lines 401-448) -/

/-- Comparison used by `sort_by_key(|(idx, _)| *idx)`. -/
def idxLe (a b : Nat × CompressedFileData) : Prop := a.1 ≤ b.1

/-- Strict version of `idxLe`, used to state uniqueness of a sorted order. -/
def idxLt (a b : Nat × CompressedFileData) : Prop := a.1 < b.1

instance : DecidableRel idxLe := fun a b => Nat.decLe a.1 b.1

instance : IsTotal (Nat × CompressedFileData) idxLe :=
  ⟨fun a b => Nat.le_total a.1 b.1⟩

instance : IsTrans (Nat × CompressedFileData) idxLe :=
  ⟨fun _ _ _ h h2 => Nat.le_trans h h2⟩

instance : IsAntisymm (Nat × CompressedFileData) idxLt :=
  ⟨fun _ _ h h2 => absurd h2 (Nat.lt_asymm h)⟩

/-- `compressed_batches.sort_by_key(|(idx, _)| *idx)` (src/compression/zstd.rs
line 406), modelled by a stable comparison sort on the index. -/
def sortResults (results : List (Nat × CompressedFileData)) :
    List (Nat × CompressedFileData) :=
  List.insertionSort idxLe results

/-- Reading a scratch file back (src/compression/zstd.rs lines 426-429): the
store records what each worker wrote. -/
def readScratch (store : List (ScratchPath × List Nat)) (p : ScratchPath) :
    List Nat :=
  match store.lookup p with
  | some data => data
  | none => []

/-- The bytes the assembler appends for one result unit
(src/compression/zstd.rs lines 422-430): the in-memory buffer or the scratch
file's contents. -/
def blobBytes (store : List (ScratchPath × List Nat)) :
    CompressedFileData → List Nat
  | ⟨_, .Memory data⟩ => data
  | ⟨_, .Disk p⟩ => readScratch store p

/-- The writing loop over the sorted result units (src/compression/zstd.rs
lines 417-431). -/
def writeResults (store : List (ScratchPath × List Nat)) :
    List (Nat × CompressedFileData) → List Nat
  | [] => []
  | r :: rest => blobBytes store r.2 ++ writeResults store rest

/-- The final trailer frame (src/compression/zstd.rs lines 434-442): a zstd
frame encoding exactly 1024 zero bytes. -/
def trailerFrame (c : ZstdCodec) (compression_level : Int) : List Nat :=
  c.encode compression_level (List.replicate 1024 0)

/-- The full byte content of the output file produced by the writing phase
(src/compression/zstd.rs lines 413-444): the result blobs in ascending index
order followed by the single trailer frame. -/
def assembleOutput (c : ZstdCodec) (compression_level : Int)
    (store : List (ScratchPath × List Nat))
    (results : List (Nat × CompressedFileData)) : List Nat :=
  writeResults store (sortResults results) ++ trailerFrame c compression_level

/-- The side-effect order of the writing phase, for the temporal claims. -/
inductive WriteEvent where
  | startWriting (total : Nat)
  | writingFile (label : String)
  | appendTrailer (bytes : List Nat)
  | fsync
  | complete (size : Nat)
deriving DecidableEq, Repr

/-- The writing phase's effect trace (src/compression/zstd.rs lines 413-446):
`StartWriting`, one `WritingFile` per sorted result, the trailer append, the
`sync_all` call, then the `Complete` report carrying the output file size. -/
def writePhaseTrace (c : ZstdCodec) (compression_level : Int)
    (store : List (ScratchPath × List Nat))
    (results : List (Nat × CompressedFileData)) : List WriteEvent :=
  WriteEvent.startWriting results.length ::
    ((sortResults results).map (fun r => WriteEvent.writingFile r.2.file_name) ++
      [WriteEvent.appendTrailer (trailerFrame c compression_level),
        WriteEvent.fsync,
        WriteEvent.complete (assembleOutput c compression_level store results).length])

/-- The whole of `generate_zstd_parallel` after scanning, as the byte content
of the output file (src/compression/zstd.rs lines 258-448, canonical worker
schedule). -/
def generate_zstd_parallel (c : ZstdCodec) (hdr : String → Nat → List Nat)
    (metaLen : String → Nat) (content : String → List Nat)
    (allFiles : List FileToCompress) (args : ArchiveOptions)
    (temp_dir : String) (replyDelivered : Nat → Bool) : List Nat :=
  let batches := generateBatches metaLen allFiles args.threads
  let run := runWorkers c hdr metaLen content temp_dir args.compression_level
    (limitBytes args.memory_limit_mb) replyDelivered batches 0
  assembleOutput c args.compression_level run.2.1 run.1

/-! ### Scanner and prune predicate (src/lib.rs, lines 194-248) -/

/-- A filesystem tree: a file with content bytes, or a directory whose
entries appear in OS readdir order. -/
inductive FsTree where
  | file (name : String) (content : List Nat)
  | dir (name : String) (entries : List FsTree)

/-- The directory-skip decision of `collect_files_recursive` (src/lib.rs
lines 216-233): the three `continue` conditions, each guarded by
`!args.is_bukkit`.  `parentName` is the basename of the directory that
contains the entry (`entry.path().parent().file_name()`). -/
def skipDir (args : ArchiveOptions) (parentName name : String) : Bool :=
  !args.is_bukkit &&
    ((!args.include_end && name == "DIM1") ||
      (!args.include_nether && name == "DIM-1") ||
      (!args.include_overworld && parentName == args.world_name &&
        (name == "regions" || name == "entities" || name == "poi")))

/-- The prune predicate as worded by the spec: skip exactly when
`is_bukkit` is false and ((a) name is DIM1 and End excluded, or (b) name is
DIM-1 and Nether excluded, or (c) parent basename equals `world_name`, name
is one of regions/entities/poi, and Overworld excluded).  Written from the
spec's words for comparison against `skipDir`. -/
def spec_skip_dir (args : ArchiveOptions) (parentName name : String) : Bool :=
  if args.is_bukkit then false
  else
    (name == "DIM1" && !args.include_end) ||
      (name == "DIM-1" && !args.include_nether) ||
      (parentName == args.world_name &&
        (name == "regions" || name == "entities" || name == "poi") &&
        !args.include_overworld)

/-- One frame of the traversal's explicit stack (src/lib.rs line 201): the
directory's own basename, its filesystem path, its entries, and the archive
path accumulated so far. -/
structure ScanFrame where
  dirName : String
  fsPath : String
  entries : List FsTree
  zipPath : String

/-- The files appended while iterating one popped directory's entries in
order (src/lib.rs lines 236-243): each file entry yields a `FileToCompress`
with `src_path = dir/<name>` and `file_name = zip_path/<name>`. -/
def frameFiles (fr : ScanFrame) : List FileToCompress :=
  fr.entries.filterMap (fun e =>
    match e with
    | .file n _ => some ⟨fr.fsPath ++ "/" ++ n, fr.zipPath ++ "/" ++ n⟩
    | .dir _ _ => none)

/-- The directory frames pushed while iterating one popped directory's
entries in order (src/lib.rs lines 215-235): each directory entry that the
skip predicate does not prune is pushed with archive path
`zip_path/<name>`. -/
def framePushes (skip : String → String → Bool) (fr : ScanFrame) :
    List ScanFrame :=
  fr.entries.filterMap (fun e =>
    match e with
    | .file _ _ => none
    | .dir n es =>
        if skip fr.dirName n then none
        else some ⟨n, fr.fsPath ++ "/" ++ n, es, fr.zipPath ++ "/" ++ n⟩)

mutual

/-- Weight of a tree, for termination of the traversal loop. -/
def FsTree.weight : FsTree → Nat
  | .file _ _ => 1
  | .dir _ es => 1 + FsTree.weightList es

/-- Total weight of a list of trees. -/
def FsTree.weightList : List FsTree → Nat
  | [] => 0
  | t :: ts => FsTree.weight t + FsTree.weightList ts

end

/-- Total weight of a traversal stack. -/
def stackWeight (stack : List ScanFrame) : Nat :=
  (stack.map (fun fr => FsTree.weightList fr.entries + 1)).sum

theorem framePushes_weight_le (skip : String → String → Bool)
    (fr : ScanFrame) :
    ((framePushes skip fr).map
        (fun g => FsTree.weightList g.entries + 1)).sum ≤
      FsTree.weightList fr.entries := by
  rcases fr with ⟨dn, fp, es, zp⟩
  simp only [framePushes]
  induction es with
  | nil => simp [FsTree.weightList]
  | cons e rest ih =>
      cases e with
      | file n c =>
          rw [List.filterMap_cons_none (by rfl)]
          calc ((rest.filterMap _).map _).sum
              ≤ FsTree.weightList rest := ih
            _ ≤ FsTree.weightList (.file n c :: rest) := by
                rw [FsTree.weightList]; omega
      | dir n es2 =>
          have hw : FsTree.weightList (.dir n es2 :: rest) =
              (1 + FsTree.weightList es2) + FsTree.weightList rest := by
            rw [FsTree.weightList, FsTree.weight]
          cases hsk : skip dn n with
          | true =>
              rw [List.filterMap_cons_none (by simp [hsk])]
              exact Nat.le_trans ih (by omega)
          | false =>
              simp only [List.filterMap_cons, hsk]
              simp only [Bool.false_eq_true, if_false, List.map_cons,
                List.sum_cons]
              have := ih
              omega

/-- The iterative depth-first traversal of `collect_files_recursive`
(src/lib.rs lines 201-245), parameterised by the skip predicate closure.
Popping a frame appends its file entries in readdir order and pushes its
surviving directory entries; since the stack is LIFO, sibling directories
are visited in reverse readdir order. -/
def scanLoop (skip : String → String → Bool) (stack : List ScanFrame) :
    List FileToCompress :=
  match stack with
  | [] => []
  | fr :: rest =>
      frameFiles fr ++ scanLoop skip ((framePushes skip fr).reverse ++ rest)
termination_by stackWeight stack
decreasing_by
  simp only [stackWeight, List.map_append, List.sum_append, List.map_cons,
    List.sum_cons, List.map_reverse, List.sum_reverse]
  have := framePushes_weight_le skip fr
  omega

/-- `collect_files_recursive(base_dir, archive_root, ..)` (src/lib.rs lines
194-248) on a modelled directory: the stack starts with the single frame
for the root directory. -/
def collect_files_recursive (args : ArchiveOptions) (baseDirName : String)
    (basePath : String) (entries : List FsTree) (archiveRoot : String) :
    List FileToCompress :=
  scanLoop (skipDir args) [⟨baseDirName, basePath, entries, archiveRoot⟩]

/-- The traversal with the spec-worded prune predicate, for the refinement
statement of the prune claim. -/
def spec_collect_files (args : ArchiveOptions) (baseDirName : String)
    (basePath : String) (entries : List FsTree) (archiveRoot : String) :
    List FileToCompress :=
  scanLoop (spec_skip_dir args) [⟨baseDirName, basePath, entries, archiveRoot⟩]

/-! ### ZIP result collection (src/compression/zip.rs, lines 238-257) -/

/-- The ZIP assembler's result collection (src/compression/zip.rs lines
239-243): results arrive in completion order and each is stored at its work
unit's index in a slot vector (`temp_zips[idx] = Some(path)`).  `List.set`
out of range is a no-op; in the program every index is in range. -/
def collectTempZips (results : List (Nat × String))
    (slots : List (Option String)) : List (Option String) :=
  results.foldl (fun acc r => acc.set r.1 (some r.2)) slots

/-! ### Progress-event traces of the Zstandard strategy
(src/compression/zstd.rs, lines 172-255) -/

/-- Events emitted by the scanning phase of `generate_zstd`
(src/compression/zstd.rs lines 179-202): `StartScanning` then one
`FileFound` per scanned file, in scan order. -/
def scanPhaseEvents (allFiles : List FileToCompress) : List ProgressMessage :=
  ProgressMessage.StartScanning ::
    allFiles.map (fun f => ProgressMessage.FileFound f.src_path)

/-- Events emitted by `generate_zstd_sequential` (src/compression/zstd.rs
lines 220-254): `StartWriting`, then per file `Compressing(0, ..)`,
`FileCompressed(0, ..)` and `WritingFile`, then `Complete`. -/
def sequentialModeEvents (allFiles : List FileToCompress) (finalSize : Nat) :
    List ProgressMessage :=
  ProgressMessage.StartWriting allFiles.length ::
    ((allFiles.map (fun f =>
        [ProgressMessage.Compressing 0 f.file_name,
          ProgressMessage.FileCompressed 0 f.file_name,
          ProgressMessage.WritingFile f.file_name])).flatten ++
      [ProgressMessage.Complete finalSize])

/-- Events emitted by `generate_zstd_parallel` after scanning, under the
canonical schedule in which worker 0 processes every batch in index order
(src/compression/zstd.rs lines 258-448): each spawned worker's initial
`Compressing(id, "Idle")`, per file of each batch `Compressing` and
`FileCompressed`, then `StartWriting`, one `WritingFile` per batch, and
`Complete`.  Real runs interleave the worker-tagged events; the multiset of
events per kind is schedule-independent. -/
def parallelModeEvents (threads : Nat)
    (batches : List (Nat × BatchToCompress)) (finalSize : Nat) :
    List ProgressMessage :=
  ((List.range threads).map (fun w => ProgressMessage.Compressing w "Idle")) ++
    (batches.map (fun ib =>
        (ib.2.files.map (fun f =>
            [ProgressMessage.Compressing 0 f.file_name,
              ProgressMessage.FileCompressed 0 f.file_name])).flatten)).flatten ++
    (ProgressMessage.StartWriting batches.length ::
      (batches.map (fun ib =>
          ProgressMessage.WritingFile ("Batch " ++ Nat.repr ib.1)) ++
        [ProgressMessage.Complete finalSize]))

/-- The full progress trace of `generate_zstd` (src/compression/zstd.rs
lines 172-217): the scan events, then `StartCompression(total_files)`
(line 205, emitted before the mode decision), then the selected mode's
events. -/
def generate_zstd_events (metaLen : String → Nat)
    (allFiles : List FileToCompress) (threads : Nat) (finalSize : Nat) :
    List ProgressMessage :=
  scanPhaseEvents allFiles ++
    (ProgressMessage.StartCompression allFiles.length ::
      (if threads = 1 then sequentialModeEvents allFiles finalSize
        else parallelModeEvents threads (generateBatches metaLen allFiles threads)
          finalSize))

/-- Recogniser for `StartCompression` events. -/
def isStartCompression : ProgressMessage → Bool
  | .StartCompression _ => true
  | _ => false

/-! ### Helper lemmas -/

/-- The zstd frame a worker produces for one batch. -/
def batchFrame (c : ZstdCodec) (lvl : Int) (hdr : String → Nat → List Nat)
    (metaLen : String → Nat) (content : String → List Nat)
    (batch : BatchToCompress) : List Nat :=
  c.encode lvl (batchPlaintext hdr metaLen content batch.files)

theorem compress_eq_direct (c : ZstdCodec) (hdr : String → Nat → List Nat)
    (metaLen : String → Nat) (content : String → List Nat)
    (temp_dir : String) (batch : BatchToCompress) (i : Nat) (lvl : Int)
    (L acct : Nat) (del : Bool) (h : L < batch.total_size) :
    compress_batch_to_zstd_frame c hdr metaLen content temp_dir batch i lvl
        L acct del =
      ⟨⟨"Batch " ++ Nat.repr i, .Disk ⟨temp_dir, i⟩⟩,
        [(⟨temp_dir, i⟩, batchFrame c lvl hdr metaLen content batch)],
        none, acct⟩ := by
  simp [compress_batch_to_zstd_frame, batchFrame, h]

theorem compress_eq_approved (c : ZstdCodec) (hdr : String → Nat → List Nat)
    (metaLen : String → Nat) (content : String → List Nat)
    (temp_dir : String) (batch : BatchToCompress) (i : Nat) (lvl : Int)
    (L acct : Nat) (del : Bool) (h : ¬ L < batch.total_size)
    (h2 : (del &&
        (requestAllocation L acct
          (batchFrame c lvl hdr metaLen content batch).length).1) = true) :
    compress_batch_to_zstd_frame c hdr metaLen content temp_dir batch i lvl
        L acct del =
      ⟨⟨"Batch " ++ Nat.repr i,
          .Memory (batchFrame c lvl hdr metaLen content batch)⟩,
        [], some (batchFrame c lvl hdr metaLen content batch).length,
        (requestAllocation L acct
          (batchFrame c lvl hdr metaLen content batch).length).2⟩ := by
  simp only [compress_batch_to_zstd_frame, batchFrame] at h2 ⊢
  rw [if_neg h, if_pos h2]

theorem compress_eq_denied (c : ZstdCodec) (hdr : String → Nat → List Nat)
    (metaLen : String → Nat) (content : String → List Nat)
    (temp_dir : String) (batch : BatchToCompress) (i : Nat) (lvl : Int)
    (L acct : Nat) (del : Bool) (h : ¬ L < batch.total_size)
    (h2 : (del &&
        (requestAllocation L acct
          (batchFrame c lvl hdr metaLen content batch).length).1) = false) :
    compress_batch_to_zstd_frame c hdr metaLen content temp_dir batch i lvl
        L acct del =
      ⟨⟨"Batch " ++ Nat.repr i, .Disk ⟨temp_dir, i⟩⟩,
        [(⟨temp_dir, i⟩, batchFrame c lvl hdr metaLen content batch)],
        some (batchFrame c lvl hdr metaLen content batch).length,
        (requestAllocation L acct
          (batchFrame c lvl hdr metaLen content batch).length).2⟩ := by
  simp only [compress_batch_to_zstd_frame, batchFrame] at h2 ⊢
  rw [if_neg h, if_neg (by simp [h2])]

theorem requestAllocation_snd_le (L current n : Nat) (h : current ≤ L) :
    (requestAllocation L current n).2 ≤ L := by
  unfold requestAllocation
  split
  · simpa using by assumption
  · simpa using h

theorem memManagerRun_le (L : Nat) (reqs : List Nat) :
    ∀ current, current ≤ L → memManagerRun L reqs current ≤ L := by
  induction reqs with
  | nil => intro c h; simpa [memManagerRun] using h
  | cons n rest ih =>
      intro c h
      rw [memManagerRun]
      exact ih _ (requestAllocation_snd_le L c n h)

theorem batchLoop_joinFiles (t : Nat) :
    ∀ (l : List (FileToCompress × Nat)) (cur : List FileToCompress) (s i : Nat),
      joinFiles (batchLoop t l cur s i) = cur ++ l.map Prod.fst := by
  intro l
  induction l with
  | nil =>
      intro cur s i
      by_cases h : cur = []
      · subst h; simp [batchLoop, joinFiles]
      · simp [batchLoop, h, joinFiles]
  | cons p rest ih =>
      intro cur s i
      rcases p with ⟨f, sz⟩
      simp only [batchLoop]
      by_cases h : t ≤ s + sz ∧ cur ++ [f] ≠ []
      · rw [if_pos h]
        simp only [joinFiles, List.map_cons, List.flatten_cons]
        have := ih [] 0 (i + 1)
        simp only [joinFiles] at this
        rw [this]
        simp
      · rw [if_neg h]
        rw [ih]
        simp

theorem batchLoop_map_fst (t : Nat) :
    ∀ (l : List (FileToCompress × Nat)) (cur : List FileToCompress) (s i : Nat),
      (batchLoop t l cur s i).map Prod.fst =
        List.range' i (batchLoop t l cur s i).length := by
  intro l
  induction l with
  | nil =>
      intro cur s i
      by_cases h : cur = [] <;> simp [batchLoop, h, List.range']
  | cons p rest ih =>
      intro cur s i
      rcases p with ⟨f, sz⟩
      simp only [batchLoop]
      by_cases h : t ≤ s + sz ∧ cur ++ [f] ≠ []
      · rw [if_pos h]
        simp only [List.map_cons, List.length_cons, ih]
        rfl
      · rw [if_neg h]
        exact ih _ _ _

theorem sum_map_dropLast_le (szf : FileToCompress → Nat)
    (l : List FileToCompress) :
    ((l.dropLast).map szf).sum ≤ (l.map szf).sum := by
  induction l using List.reverseRecOn with
  | nil => simp
  | append_singleton l a ih => simp [List.dropLast_concat]

theorem batchLoop_invariant (t : Nat) (szf : FileToCompress → Nat) :
    ∀ (l : List (FileToCompress × Nat)) (cur : List FileToCompress) (s i : Nat),
      (∀ p ∈ l, p.2 = szf p.1) →
      s = (cur.map szf).sum →
      s < t →
      ∀ ib ∈ batchLoop t l cur s i,
        ib.2.files ≠ [] ∧
        ((ib.2.files.dropLast).map szf).sum < t ∧
        ib.2.total_size = (ib.2.files.map szf).sum := by
  intro l
  induction l with
  | nil =>
      intro cur s i hsz hs hlt ib hib
      by_cases h : cur = []
      · subst h
        simp [batchLoop] at hib
      · simp only [batchLoop, if_neg h] at hib
        have heq : ib = (i, ⟨cur, s⟩) := by simpa using hib
        subst heq
        refine ⟨h, ?_, hs⟩
        calc ((cur.dropLast).map szf).sum
            ≤ (cur.map szf).sum := sum_map_dropLast_le szf cur
          _ < t := by omega
  | cons p rest ih =>
      intro cur s i hsz hs hlt ib hib
      rcases p with ⟨f, sz⟩
      have hszf : sz = szf f := hsz (f, sz) (by simp)
      simp only [batchLoop] at hib
      by_cases h : t ≤ s + sz ∧ cur ++ [f] ≠ []
      · rw [if_pos h] at hib
        rcases List.mem_cons.mp hib with heq | hmem
        · subst heq
          refine ⟨by simp, ?_, ?_⟩
          · rw [List.dropLast_concat]
            omega
          · simp [hs, hszf]
        · exact ih [] 0 (i + 1) (fun q hq => hsz q (by simp [hq])) rfl
            (by omega) ib hmem
      · rw [if_neg h] at hib
        have hne : cur ++ [f] ≠ [] := by simp
        have hlt2 : s + sz < t := by
          rcases Nat.lt_or_ge (s + sz) t with h2 | h2
          · exact h2
          · exact absurd ⟨h2, hne⟩ h
        exact ih (cur ++ [f]) (s + sz) i
          (fun q hq => hsz q (by simp [hq]))
          (by simp [hs, hszf]) hlt2 ib hib

theorem one_le_batchThreshold (total threads : Nat) :
    1 ≤ batchThreshold total threads := by
  simp only [batchThreshold, MIN_BATCH_SIZE_BYTES, MAX_BATCH_SIZE_BYTES]
  omega

theorem batchThreshold_le_MAX (total threads : Nat) :
    batchThreshold total threads ≤ MAX_BATCH_SIZE_BYTES := by
  simp only [batchThreshold]
  exact Nat.le_trans (Nat.min_le_left _ _) (Nat.min_le_right _ _)

theorem runWorkers_map_fst (c : ZstdCodec) (hdr : String → Nat → List Nat)
    (metaLen : String → Nat) (content : String → List Nat)
    (temp_dir : String) (lvl : Int) (L : Nat) (del : Nat → Bool) :
    ∀ (batches : List (Nat × BatchToCompress)) (acct : Nat),
      (runWorkers c hdr metaLen content temp_dir lvl L del batches
          acct).1.map Prod.fst =
        batches.map Prod.fst := by
  intro batches
  induction batches with
  | nil => intro acct; simp [runWorkers]
  | cons ib rest ih =>
      intro acct
      rcases ib with ⟨i, b⟩
      simp only [runWorkers, List.map_cons]
      rw [ih]

theorem pairwise_idxLt_of_sorted_nodup
    (l : List (Nat × CompressedFileData)) (hs : List.Sorted idxLe l)
    (hn : (l.map Prod.fst).Nodup) : List.Sorted idxLt l := by
  have hne : List.Pairwise
      (fun a b : Nat × CompressedFileData => a.1 ≠ b.1) l :=
    List.pairwise_map.mp hn
  exact (hs.and hne).imp (fun h => Nat.lt_of_le_of_ne h.1 h.2)

theorem sorted_idxLt_of_map_fst_range (l : List (Nat × CompressedFileData))
    (h : l.map Prod.fst = List.range l.length) : List.Sorted idxLt l := by
  have hlt : List.Pairwise (fun a b : Nat => a < b) (l.map Prod.fst) := by
    rw [h]
    exact List.pairwise_lt_range _
  exact (@List.pairwise_map _ _ Prod.fst (fun a b : Nat => a < b) l).mp hlt

theorem sortResults_eq_of_perm
    (canonical arrival : List (Nat × CompressedFileData))
    (hperm : arrival.Perm canonical)
    (hsorted : List.Sorted idxLt canonical) :
    sortResults arrival = canonical := by
  have hp : (sortResults arrival).Perm canonical :=
    (List.perm_insertionSort idxLe arrival).trans hperm
  have hkeyslt : List.Pairwise (fun a b : Nat => a < b)
      (canonical.map Prod.fst) :=
    List.pairwise_map.mpr hsorted
  have hnodupc : (canonical.map Prod.fst).Nodup :=
    hkeyslt.imp Nat.ne_of_lt
  have hnodups : ((sortResults arrival).map Prod.fst).Nodup :=
    ((hp.map Prod.fst).nodup_iff).mpr hnodupc
  have hstrict : List.Sorted idxLt (sortResults arrival) :=
    pairwise_idxLt_of_sorted_nodup _
      (List.sorted_insertionSort idxLe arrival) hnodups
  exact List.eq_of_perm_of_sorted hp hstrict hsorted

theorem collectTempZips_getElem? :
    ∀ (l : List (Nat × String)) (slots : List (Option String)) (k : Nat),
      ((∀ v, (k, v) ∉ l) →
        (collectTempZips l slots)[k]? = slots[k]?) ∧
      (∀ v, (k, v) ∈ l → (l.map Prod.fst).Nodup → k < slots.length →
        (collectTempZips l slots)[k]? = some (some v)) := by
  intro l
  induction l with
  | nil =>
      intro slots k
      constructor
      · intro _; rfl
      · intro v hv; simp at hv
  | cons x rest ih =>
      intro slots k
      have hstep : collectTempZips (x :: rest) slots =
          collectTempZips rest (slots.set x.1 (some x.2)) := rfl
      constructor
      · intro hnot
        rw [hstep,
          (ih _ k).1 (fun v hv => hnot v (List.mem_cons_of_mem _ hv))]
        have hx : x.1 ≠ k := by
          intro hk
          exact hnot x.2 (by
            rcases x with ⟨a, b⟩
            simp only at hk
            subst hk
            exact List.mem_cons_self _ _)
        exact List.getElem?_set_ne hx
      · intro v hv hnodup hk
        obtain ⟨hhead, htail⟩ := List.nodup_cons.mp hnodup
        rw [hstep]
        rcases List.mem_cons.mp hv with heq | hmem
        · have hx1 : x.1 = k := by rw [← heq]
          have hx2 : x.2 = v := by rw [← heq]
          have hnotin : ∀ w, (k, w) ∉ rest := by
            intro w hw
            exact hhead (by
              rw [hx1]
              exact List.mem_map.mpr ⟨(k, w), hw, rfl⟩)
          rw [(ih _ k).1 hnotin, hx1, hx2]
          exact List.getElem?_set_self hk
        · have hx1k : x.1 ≠ k := by
            intro he
            exact hhead (by
              rw [he]
              exact List.mem_map.mpr ⟨(k, v), hmem, rfl⟩)
          exact (ih _ k).2 v hmem htail
            (by rw [List.length_set]; exact hk)

theorem collectTempZips_perm_enum (paths : List String)
    (arrival : List (Nat × String)) (hperm : arrival.Perm paths.enum) :
    collectTempZips arrival (List.replicate paths.length none) =
      paths.map some := by
  apply List.ext_getElem?
  intro k
  by_cases hk : k < paths.length
  · have hmem : (k, paths.get ⟨k, hk⟩) ∈ paths.enum :=
      List.mk_mem_enum_iff_getElem?.mpr (by simp)
    have hmem2 : (k, paths.get ⟨k, hk⟩) ∈ arrival :=
      (hperm.mem_iff).mpr hmem
    have hnodup : (arrival.map Prod.fst).Nodup :=
      ((hperm.map Prod.fst).nodup_iff).mpr
        (by rw [List.enum_map_fst]; exact List.nodup_range _)
    rw [(collectTempZips_getElem? arrival _ k).2 _ hmem2 hnodup
      (by simpa using hk)]
    simp [hk]
  · have hnot : ∀ v, (k, v) ∉ arrival := by
      intro v hv
      have hve := List.mk_mem_enum_iff_getElem?.mp ((hperm.mem_iff).mp hv)
      rw [List.getElem?_eq_none (by omega)] at hve
      cases hve
    rw [(collectTempZips_getElem? arrival _ k).1 hnot]
    rw [List.getElem?_eq_none (by simpa using Nat.le_of_not_lt hk),
      List.getElem?_eq_none (by simpa using Nat.le_of_not_lt hk)]

theorem writeResults_eq_flatten (store : List (ScratchPath × List Nat)) :
    ∀ rs : List (Nat × CompressedFileData),
      writeResults store rs =
        (rs.map (fun r => blobBytes store r.2)).flatten := by
  intro rs
  induction rs with
  | nil => rfl
  | cons r rest ih => simp [writeResults, ih]

theorem fsync_before_complete (pre : List WriteEvent) (n : Nat)
    (hpre : ∀ m, WriteEvent.complete m ∉ pre) :
    ∀ (l1 l2 : List WriteEvent) (sz : Nat),
      pre ++ [WriteEvent.fsync, WriteEvent.complete n] =
        l1 ++ WriteEvent.complete sz :: l2 →
      WriteEvent.fsync ∈ l1 := by
  induction pre with
  | nil =>
      intro l1 l2 sz heq
      match l1, heq with
      | [], heq => simp at heq
      | [x], heq =>
          simp only [List.cons_append, List.nil_append,
            List.cons.injEq] at heq
          rw [← heq.1]
          simp
      | x :: y :: ys, heq =>
          simp only [List.cons_append, List.nil_append,
            List.cons.injEq] at heq
          exact absurd heq.2.2.symm (by simp)
  | cons p ps ih =>
      intro l1 l2 sz heq
      match l1, heq with
      | [], heq =>
          exfalso
          simp only [List.nil_append, List.cons_append,
            List.cons.injEq] at heq
          exact hpre sz (by rw [← heq.1]; exact List.mem_cons_self _ _)
      | x :: xs, heq =>
          simp only [List.cons_append, List.cons.injEq] at heq
          exact List.mem_cons_of_mem _
            (ih (fun m hm => hpre m (List.mem_cons_of_mem _ hm)) xs l2 sz
              heq.2)

theorem generateBatches_joinFiles (metaLen : String → Nat)
    (allFiles : List FileToCompress) (threads : Nat) :
    joinFiles (generateBatches metaLen allFiles threads) = allFiles := by
  unfold generateBatches
  rw [batchLoop_joinFiles]
  simp only [filesWithSize, List.nil_append, List.map_map]
  have hid : (Prod.fst ∘ fun f : FileToCompress =>
      (f, metaLen f.src_path)) = id := rfl
  rw [hid, List.map_id]

theorem batchPlaintext_append (hdr : String → Nat → List Nat)
    (metaLen : String → Nat) (content : String → List Nat)
    (l1 l2 : List FileToCompress) :
    batchPlaintext hdr metaLen content (l1 ++ l2) =
      batchPlaintext hdr metaLen content l1 ++
        batchPlaintext hdr metaLen content l2 := by
  simp [batchPlaintext]

theorem joinFiles_cons (ib : Nat × BatchToCompress)
    (rest : List (Nat × BatchToCompress)) :
    joinFiles (ib :: rest) = ib.2.files ++ joinFiles rest := by
  simp [joinFiles]

theorem flatten_batchPlaintext (hdr : String → Nat → List Nat)
    (metaLen : String → Nat) (content : String → List Nat) :
    ∀ bs : List (Nat × BatchToCompress),
      (bs.map
          (fun ib => batchPlaintext hdr metaLen content ib.2.files)).flatten =
        batchPlaintext hdr metaLen content (joinFiles bs) := by
  intro bs
  induction bs with
  | nil => rfl
  | cons ib rest ih =>
      rw [List.map_cons, List.flatten_cons, ih, joinFiles_cons,
        batchPlaintext_append]

theorem length_le_of_join_nonempty (bs : List (Nat × BatchToCompress))
    (hne : ∀ ib ∈ bs, ib.2.files ≠ []) :
    bs.length ≤ (joinFiles bs).length := by
  induction bs with
  | nil => simp [joinFiles]
  | cons ib rest ih =>
      simp only [joinFiles, List.map_cons, List.flatten_cons,
        List.length_append, List.length_cons]
      have h1 : 1 ≤ ib.2.files.length :=
        List.length_pos.mpr (hne ib (List.mem_cons_self _ _))
      have h2 := ih (fun x hx => hne x (List.mem_cons_of_mem _ hx))
      simp only [joinFiles] at h2
      omega

theorem scanLoop_nil (skip : String → String → Bool) :
    scanLoop skip [] = [] := by
  rw [scanLoop]

theorem scanLoop_cons (skip : String → String → Bool) (fr : ScanFrame)
    (rest : List ScanFrame) :
    scanLoop skip (fr :: rest) =
      frameFiles fr ++
        scanLoop skip ((framePushes skip fr).reverse ++ rest) := by
  rw [scanLoop]

theorem stackWeight_push_lt (skip : String → String → Bool) (fr : ScanFrame)
    (rest : List ScanFrame) :
    stackWeight ((framePushes skip fr).reverse ++ rest) <
      stackWeight (fr :: rest) := by
  simp only [stackWeight, List.map_append, List.sum_append, List.map_cons,
    List.sum_cons, List.map_reverse, List.sum_reverse]
  have := framePushes_weight_le skip fr
  omega

theorem framePushes_congr (skip1 skip2 : String → String → Bool)
    (h : ∀ p n, skip1 p n = skip2 p n) (fr : ScanFrame) :
    framePushes skip1 fr = framePushes skip2 fr := by
  unfold framePushes
  apply List.filterMap_congr
  intro e _
  cases e with
  | file n c => rfl
  | dir n es =>
      dsimp only
      rw [h fr.dirName n]

theorem scanLoop_congr (skip1 skip2 : String → String → Bool)
    (h : ∀ p n, skip1 p n = skip2 p n) :
    ∀ stack, scanLoop skip1 stack = scanLoop skip2 stack := by
  have main : ∀ (m : Nat) (stack : List ScanFrame), stackWeight stack ≤ m →
      scanLoop skip1 stack = scanLoop skip2 stack := by
    intro m
    induction m with
    | zero =>
        intro stack hle
        cases stack with
        | nil => rw [scanLoop_nil, scanLoop_nil]
        | cons fr rest =>
            exfalso
            simp only [stackWeight, List.map_cons, List.sum_cons] at hle
            omega
    | succ m ih =>
        intro stack hle
        cases stack with
        | nil => rw [scanLoop_nil, scanLoop_nil]
        | cons fr rest =>
            rw [scanLoop_cons, scanLoop_cons,
              framePushes_congr skip1 skip2 h fr]
            have hlt := stackWeight_push_lt skip2 fr rest
            have hw : stackWeight ((framePushes skip2 fr).reverse ++ rest) ≤
                m := by
              have h2 : stackWeight (fr :: rest) ≤ m + 1 := hle
              omega
            rw [ih _ hw]
  intro stack
  exact main (stackWeight stack) stack (Nat.le_refl _)

theorem skipDir_eq_spec (args : ArchiveOptions) (p n : String) :
    skipDir args p n = spec_skip_dir args p n := by
  cases hb : args.is_bukkit with
  | false =>
      rw [Bool.eq_iff_iff]
      simp only [skipDir, spec_skip_dir, hb, Bool.not_false, Bool.true_and,
        Bool.false_eq_true, if_false, Bool.or_eq_true, Bool.and_eq_true,
        Bool.not_eq_true', beq_iff_eq]
      tauto
  | true => simp [skipDir, spec_skip_dir, hb]

/-! ### Claim theorems -/

/-- C2: the Memory Accountant is a counter starting at 0 with fixed limit
`L = memory_limit_mib × 1024 × 1024`; `RequestAllocation(n)` increments the
counter and replies true when `current + n ≤ L`, otherwise replies false and
leaves the counter unchanged; `current ≤ L` is preserved by every request
(and holds after any request sequence from 0); and a worker's result carries
an in-memory payload only if the accountant approved a request for that
payload's exact byte length. -/
theorem C2_memory_accountant :
    ∀ (memory_limit_mb currentUsage size : Nat) (requests : List Nat),
      limitBytes memory_limit_mb = memory_limit_mb * 1024 * 1024 ∧
      (currentUsage + size ≤ limitBytes memory_limit_mb →
        requestAllocation (limitBytes memory_limit_mb) currentUsage size =
          (true, currentUsage + size)) ∧
      (limitBytes memory_limit_mb < currentUsage + size →
        requestAllocation (limitBytes memory_limit_mb) currentUsage size =
          (false, currentUsage)) ∧
      (currentUsage ≤ limitBytes memory_limit_mb →
        (requestAllocation (limitBytes memory_limit_mb) currentUsage size).2 ≤
          limitBytes memory_limit_mb) ∧
      memManagerRun (limitBytes memory_limit_mb) requests 0 ≤
        limitBytes memory_limit_mb ∧
      (∀ (c : ZstdCodec) (hdr : String → Nat → List Nat)
          (metaLen : String → Nat) (content : String → List Nat)
          (temp_dir : String) (batch : BatchToCompress) (batch_idx : Nat)
          (lvl : Int) (acct : Nat) (delivered : Bool) (buf : List Nat),
        (compress_batch_to_zstd_frame c hdr metaLen content temp_dir batch
            batch_idx lvl (limitBytes memory_limit_mb) acct delivered).result.data =
          CompressedDataLocation.Memory buf →
        (compress_batch_to_zstd_frame c hdr metaLen content temp_dir batch
            batch_idx lvl (limitBytes memory_limit_mb) acct delivered).request =
          some buf.length ∧
        (requestAllocation (limitBytes memory_limit_mb) acct buf.length).1 =
          true) := by
  intro mb currentUsage size requests
  refine ⟨rfl, ?_, ?_, ?_, memManagerRun_le _ _ 0 (Nat.zero_le _), ?_⟩
  · intro h
    unfold requestAllocation
    rw [if_pos h]
  · intro h
    unfold requestAllocation
    rw [if_neg (by omega)]
  · exact requestAllocation_snd_le _ _ _
  · intro c hdr metaLen content temp_dir batch batch_idx lvl acct delivered buf
    by_cases hdirect : limitBytes mb < batch.total_size
    · rw [compress_eq_direct c hdr metaLen content temp_dir batch batch_idx
        lvl _ acct delivered hdirect]
      intro h
      exact absurd h (by simp)
    · cases happ : (delivered &&
          (requestAllocation (limitBytes mb) acct
            (batchFrame c lvl hdr metaLen content batch).length).1) with
      | true =>
          rw [compress_eq_approved c hdr metaLen content temp_dir batch
            batch_idx lvl _ acct delivered hdirect happ]
          intro h
          have hbuf : buf = batchFrame c lvl hdr metaLen content batch := by
            simpa using h.symm
          subst hbuf
          refine ⟨rfl, ?_⟩
          simp only [Bool.and_eq_true] at happ
          exact happ.2
      | false =>
          rw [compress_eq_denied c hdr metaLen content temp_dir batch
            batch_idx lvl _ acct delivered hdirect happ]
          intro h
          exact absurd h (by simp)

/-- Witness for C2 at concrete inputs. -/
theorem C2_memory_accountant_witness :
    requestAllocation (limitBytes 1) 0 100 = (true, 100) ∧
    requestAllocation (limitBytes 0) 0 1 = (false, 0) := by
  constructor
  · exact (C2_memory_accountant 1 0 100 []).2.1 (by decide)
  · exact (C2_memory_accountant 0 0 1 []).2.2.1 (by decide)

/-- C1: a parallel-mode batch whose uncompressed total strictly exceeds the
limit `L` is compressed directly to `scratch_dir/batch_<index>.zst` and
returned as `Disk(path)`; otherwise the frame is built in memory,
`RequestAllocation` is called with its exact compressed length, an observed
approval yields `Memory(buf)` and an observed denial writes the buffer to
`scratch_dir/batch_<index>.zst` and yields `Disk(path)`; no batch whose
uncompressed size exceeds `L` is ever returned as a `Memory` result. -/
theorem C1_batch_placement :
    ∀ (c : ZstdCodec) (hdr : String → Nat → List Nat)
      (metaLen : String → Nat) (content : String → List Nat)
      (temp_dir : String) (batch : BatchToCompress) (batch_idx : Nat)
      (lvl : Int) (L acct : Nat) (replyDelivered : Bool),
      (L < batch.total_size →
        (compress_batch_to_zstd_frame c hdr metaLen content temp_dir batch
            batch_idx lvl L acct replyDelivered).result.data =
          CompressedDataLocation.Disk ⟨temp_dir, batch_idx⟩ ∧
        (compress_batch_to_zstd_frame c hdr metaLen content temp_dir batch
            batch_idx lvl L acct replyDelivered).request = none) ∧
      (batch.total_size ≤ L →
        (compress_batch_to_zstd_frame c hdr metaLen content temp_dir batch
            batch_idx lvl L acct replyDelivered).request =
          some (batchFrame c lvl hdr metaLen content batch).length ∧
        (replyDelivered = true →
          ((requestAllocation L acct
              (batchFrame c lvl hdr metaLen content batch).length).1 = true →
            (compress_batch_to_zstd_frame c hdr metaLen content temp_dir
                batch batch_idx lvl L acct replyDelivered).result.data =
              CompressedDataLocation.Memory
                (batchFrame c lvl hdr metaLen content batch)) ∧
          ((requestAllocation L acct
              (batchFrame c lvl hdr metaLen content batch).length).1 = false →
            (compress_batch_to_zstd_frame c hdr metaLen content temp_dir
                batch batch_idx lvl L acct replyDelivered).result.data =
              CompressedDataLocation.Disk ⟨temp_dir, batch_idx⟩ ∧
            (⟨temp_dir, batch_idx⟩,
                batchFrame c lvl hdr metaLen content batch) ∈
              (compress_batch_to_zstd_frame c hdr metaLen content temp_dir
                batch batch_idx lvl L acct replyDelivered).scratchWrites))) ∧
      (∀ buf,
        (compress_batch_to_zstd_frame c hdr metaLen content temp_dir batch
            batch_idx lvl L acct replyDelivered).result.data =
          CompressedDataLocation.Memory buf →
        batch.total_size ≤ L) ∧
      ScratchPath.render ⟨temp_dir, batch_idx⟩ =
        temp_dir ++ "/batch_" ++ Nat.repr batch_idx ++ ".zst" := by
  intro c hdr metaLen content temp_dir batch batch_idx lvl L acct del
  refine ⟨?_, ?_, ?_, rfl⟩
  · intro hdirect
    rw [compress_eq_direct c hdr metaLen content temp_dir batch batch_idx
      lvl L acct del hdirect]
    exact ⟨rfl, rfl⟩
  · intro hmem
    have hdirect : ¬ L < batch.total_size := by omega
    cases happ : (del &&
        (requestAllocation L acct
          (batchFrame c lvl hdr metaLen content batch).length).1) with
    | true =>
        rw [compress_eq_approved c hdr metaLen content temp_dir batch
          batch_idx lvl L acct del hdirect happ]
        refine ⟨rfl, ?_⟩
        intro _
        constructor
        · intro _; rfl
        · intro hfalse
          simp only [Bool.and_eq_true] at happ
          rw [happ.2] at hfalse
          cases hfalse
    | false =>
        rw [compress_eq_denied c hdr metaLen content temp_dir batch
          batch_idx lvl L acct del hdirect happ]
        refine ⟨rfl, ?_⟩
        intro hdel
        subst hdel
        simp only [Bool.true_and] at happ
        constructor
        · intro htrue
          rw [happ] at htrue
          cases htrue
        · intro _
          exact ⟨rfl, List.mem_singleton.mpr rfl⟩
  · intro buf
    by_cases hdirect : L < batch.total_size
    · rw [compress_eq_direct c hdr metaLen content temp_dir batch batch_idx
        lvl L acct del hdirect]
      intro h
      exact absurd h (by simp)
    · intro _
      omega

/-- C3: in Zstandard parallel mode the batch threshold equals
`clamp(total_uncompressed / threads, 64 MiB, 512 MiB).min(max(total_uncompressed, 1))`,
and the batching walk emits work units with ascending indices `0, 1, ...`
whose batches partition the scanned file list in order, no file dropped or
duplicated. -/
theorem C3_dynamic_batching :
    ∀ (metaLen : String → Nat) (allFiles : List FileToCompress)
      (threads : Nat),
      1 ≤ threads →
      batchThreshold (totalUncompressedSize metaLen allFiles) threads =
        spec_batch_threshold (totalUncompressedSize metaLen allFiles)
          threads ∧
      joinFiles (generateBatches metaLen allFiles threads) = allFiles ∧
      (generateBatches metaLen allFiles threads).map Prod.fst =
        List.range (generateBatches metaLen allFiles threads).length := by
  intro metaLen allFiles threads hth
  refine ⟨?_, ?_, ?_⟩
  · unfold batchThreshold spec_batch_threshold
    have hmax : max threads 1 = threads := by omega
    rw [hmax]
  · unfold generateBatches
    rw [batchLoop_joinFiles]
    simp only [filesWithSize, List.nil_append, List.map_map]
    have hid : (Prod.fst ∘ fun f : FileToCompress =>
        (f, metaLen f.src_path)) = id := rfl
    rw [hid, List.map_id]
  · unfold generateBatches
    rw [batchLoop_map_fst, List.range_eq_range']

/-- Witness for C3 at concrete inputs: two 10-byte files, two threads. -/
theorem C3_dynamic_batching_witness :
    joinFiles (generateBatches (fun _ => 10)
        [⟨"/w/a", "w/a"⟩, ⟨"/w/b", "w/b"⟩] 2) =
      [⟨"/w/a", "w/a"⟩, ⟨"/w/b", "w/b"⟩] :=
  (C3_dynamic_batching (fun _ => 10) [⟨"/w/a", "w/a"⟩, ⟨"/w/b", "w/b"⟩] 2
    (by decide)).2.1

/-- C10: because the batching loop adds a file before testing the
threshold, every emitted batch is non-empty and its uncompressed total was
strictly below `batch_threshold` before its last file was added; hence a
batch's total exceeds the threshold by less than its last file's size, and
a single file larger than the 512 MiB maximum forms one batch of that full
size. -/
theorem C10_threshold_overflow :
    ∀ (metaLen : String → Nat) (allFiles : List FileToCompress)
      (threads : Nat),
      (∀ ib ∈ generateBatches metaLen allFiles threads,
        ib.2.files ≠ [] ∧
        ((ib.2.files.dropLast).map (fun f => metaLen f.src_path)).sum <
          batchThreshold (totalUncompressedSize metaLen allFiles) threads ∧
        ib.2.total_size =
          (ib.2.files.map (fun f => metaLen f.src_path)).sum ∧
        (∀ h : ib.2.files ≠ [],
          ib.2.total_size <
            batchThreshold (totalUncompressedSize metaLen allFiles) threads +
              metaLen (ib.2.files.getLast h).src_path)) ∧
      (∀ f : FileToCompress,
        MAX_BATCH_SIZE_BYTES < metaLen f.src_path →
        generateBatches metaLen [f] threads =
          [(0, ⟨[f], metaLen f.src_path⟩)]) := by
  intro metaLen allFiles threads
  constructor
  · intro ib hib
    have hinv := batchLoop_invariant
      (batchThreshold (totalUncompressedSize metaLen allFiles) threads)
      (fun f => metaLen f.src_path) (filesWithSize metaLen allFiles) [] 0 0
      (by
        intro p hp
        simp only [filesWithSize, List.mem_map] at hp
        rcases hp with ⟨f, _, rfl⟩
        rfl)
      rfl (one_le_batchThreshold _ _) ib hib
    obtain ⟨hne, hdrop, htot⟩ := hinv
    refine ⟨hne, hdrop, htot, ?_⟩
    intro h
    have hdecomp : (ib.2.files.map (fun f => metaLen f.src_path)).sum =
        ((ib.2.files.dropLast).map (fun f => metaLen f.src_path)).sum +
          metaLen (ib.2.files.getLast h).src_path := by
      conv_lhs => rw [← List.dropLast_append_getLast h]
      simp
    omega
  · intro f hbig
    have hle := batchThreshold_le_MAX (totalUncompressedSize metaLen [f])
      threads
    simp only [generateBatches, filesWithSize, List.map_cons, List.map_nil,
      batchLoop]
    rw [if_pos ⟨by omega, by simp⟩]
    simp

/-- Witness for C10 at concrete inputs: one 600 MiB file forms a single
full-size batch. -/
theorem C10_threshold_overflow_witness :
    generateBatches (fun _ => 600 * 1024 * 1024) [⟨"/w/big", "w/big"⟩] 4 =
      [(0, ⟨[⟨"/w/big", "w/big"⟩], 600 * 1024 * 1024⟩)] :=
  (C10_threshold_overflow (fun _ => 600 * 1024 * 1024) [] 4).2
    ⟨"/w/big", "w/big"⟩ (by decide)

/-- Witness for C1 at concrete inputs: a 5-byte batch against a 3-byte
limit goes directly to disk. -/
theorem C1_batch_placement_witness :
    (compress_batch_to_zstd_frame simpleCodec (fun _ _ => [])
        (fun _ => 5) (fun _ => [1, 2, 3, 4, 5]) "/tmp"
        ⟨[⟨"a", "w/a"⟩], 5⟩ 0 3 3 0 true).result.data =
      CompressedDataLocation.Disk ⟨"/tmp", 0⟩ := by
  exact ((C1_batch_placement simpleCodec (fun _ _ => []) (fun _ => 5)
    (fun _ => [1, 2, 3, 4, 5]) "/tmp" ⟨[⟨"a", "w/a"⟩], 5⟩ 0 3 3 0 true).1
    (by decide)).1

/-- C4: every result unit carries the index of the work unit it answers;
sorting any arrival order of the results by index recovers the canonical
index-ascending list, so two runs differing only in worker completion order
write identical output sequences; the ZIP assembler's slot vector likewise
ends up identical for every arrival order. -/
theorem C4_index_order_determinism :
    ∀ (c : ZstdCodec) (hdr : String → Nat → List Nat)
      (metaLen : String → Nat) (content : String → List Nat)
      (temp_dir : String) (lvl : Int) (L : Nat) (del : Nat → Bool)
      (allFiles : List FileToCompress) (threads : Nat),
      ((runWorkers c hdr metaLen content temp_dir lvl L del
          (generateBatches metaLen allFiles threads) 0).1.map Prod.fst =
        (generateBatches metaLen allFiles threads).map Prod.fst) ∧
      (∀ arrival : List (Nat × CompressedFileData),
        arrival.Perm (runWorkers c hdr metaLen content temp_dir lvl L del
          (generateBatches metaLen allFiles threads) 0).1 →
        sortResults arrival =
          (runWorkers c hdr metaLen content temp_dir lvl L del
            (generateBatches metaLen allFiles threads) 0).1) ∧
      (∀ arrival1 arrival2 : List (Nat × CompressedFileData),
        arrival1.Perm (runWorkers c hdr metaLen content temp_dir lvl L del
          (generateBatches metaLen allFiles threads) 0).1 →
        arrival2.Perm (runWorkers c hdr metaLen content temp_dir lvl L del
          (generateBatches metaLen allFiles threads) 0).1 →
        sortResults arrival1 = sortResults arrival2) ∧
      (∀ (paths : List String) (arrival : List (Nat × String)),
        arrival.Perm paths.enum →
        collectTempZips arrival (List.replicate paths.length none) =
          paths.map some) := by
  intro c hdr metaLen content temp_dir lvl L del allFiles threads
  have hfst := runWorkers_map_fst c hdr metaLen content temp_dir lvl L del
    (generateBatches metaLen allFiles threads) 0
  have hlen : (runWorkers c hdr metaLen content temp_dir lvl L del
      (generateBatches metaLen allFiles threads) 0).1.length =
      (generateBatches metaLen allFiles threads).length := by
    have := congrArg List.length hfst
    simpa using this
  have hrange : (runWorkers c hdr metaLen content temp_dir lvl L del
      (generateBatches metaLen allFiles threads) 0).1.map Prod.fst =
      List.range (runWorkers c hdr metaLen content temp_dir lvl L del
        (generateBatches metaLen allFiles threads) 0).1.length := by
    rw [hfst, hlen]
    unfold generateBatches
    rw [batchLoop_map_fst, List.range_eq_range']
  have hsorted := sorted_idxLt_of_map_fst_range _ hrange
  refine ⟨hfst, ?_, ?_, ?_⟩
  · intro arrival hperm
    exact sortResults_eq_of_perm _ _ hperm hsorted
  · intro arrival1 arrival2 h1 h2
    rw [sortResults_eq_of_perm _ _ h1 hsorted,
      sortResults_eq_of_perm _ _ h2 hsorted]
  · intro paths arrival hperm
    exact collectTempZips_perm_enum paths arrival hperm

/-- Witness for C4 at concrete inputs: an out-of-order ZIP result arrival
fills the slot vector in scanner order. -/
theorem C4_index_order_determinism_witness :
    collectTempZips [(1, "/t/file_1.zip"), (0, "/t/file_0.zip")]
        (List.replicate ["/t/file_0.zip", "/t/file_1.zip"].length none) =
      ["/t/file_0.zip", "/t/file_1.zip"].map some :=
  (C4_index_order_determinism simpleCodec (fun _ _ => []) (fun _ => 0)
    (fun _ => []) "/tmp" 3 0 (fun _ => true) [] 1).2.2.2
    ["/t/file_0.zip", "/t/file_1.zip"]
    [(1, "/t/file_1.zip"), (0, "/t/file_0.zip")] (by decide)

/-- C6: the assembled output is the concatenation of the result blobs in
ascending index order followed by exactly one trailer, a zstd frame whose
decompressed plaintext is 1024 zero bytes; every `Complete` in the write
phase's effect trace is preceded by the `fsync`; and with zero scanned files
the output is the terminator frame alone, of size greater than 0. -/
theorem C6_zstd_assembly_trailer :
    ∀ (c : ZstdCodec) (lvl : Int) (store : List (ScratchPath × List Nat))
      (results : List (Nat × CompressedFileData))
      (hdr : String → Nat → List Nat) (metaLen : String → Nat)
      (content : String → List Nat) (args : ArchiveOptions)
      (temp_dir : String) (del : Nat → Bool),
      assembleOutput c lvl store results =
        ((sortResults results).map (fun r => blobBytes store r.2)).flatten ++
          c.encode lvl (List.replicate 1024 0) ∧
      c.decode lvl (trailerFrame c lvl) = List.replicate 1024 0 ∧
      (∀ (l1 l2 : List WriteEvent) (sz : Nat),
        writePhaseTrace c lvl store results =
          l1 ++ WriteEvent.complete sz :: l2 →
        WriteEvent.fsync ∈ l1) ∧
      generate_zstd_parallel c hdr metaLen content [] args temp_dir del =
        trailerFrame c args.compression_level ∧
      0 < (generate_zstd_parallel c hdr metaLen content [] args temp_dir
        del).length := by
  intro c lvl store results hdr metaLen content args temp_dir del
  have hempty : generate_zstd_parallel c hdr metaLen content [] args temp_dir
      del = trailerFrame c args.compression_level := by
    simp [generate_zstd_parallel, generateBatches, filesWithSize,
      totalUncompressedSize, batchLoop, runWorkers, assembleOutput,
      sortResults, writeResults]
  refine ⟨?_, c.decode_encode lvl _, ?_, hempty, ?_⟩
  · rw [assembleOutput, writeResults_eq_flatten]
    rfl
  · intro l1 l2 sz heq
    have hshape : writePhaseTrace c lvl store results =
        (WriteEvent.startWriting results.length ::
          ((sortResults results).map
              (fun r => WriteEvent.writingFile r.2.file_name) ++
            [WriteEvent.appendTrailer (trailerFrame c lvl)])) ++
          [WriteEvent.fsync,
            WriteEvent.complete
              (assembleOutput c lvl store results).length] := by
      simp [writePhaseTrace]
    have hpre : ∀ m, WriteEvent.complete m ∉
        WriteEvent.startWriting results.length ::
          ((sortResults results).map
              (fun r => WriteEvent.writingFile r.2.file_name) ++
            [WriteEvent.appendTrailer (trailerFrame c lvl)]) := by
      intro m hm
      rcases List.mem_cons.mp hm with h | h
      · cases h
      · rcases List.mem_append.mp h with h2 | h2
        · rcases List.mem_map.mp h2 with ⟨r, _, hr⟩
          cases hr
        · cases List.mem_singleton.mp h2
    exact fsync_before_complete _ _ hpre l1 l2 sz (hshape ▸ heq)
  · rw [hempty]
    exact List.length_pos.mpr (c.encode_ne_nil _ _)

/-- C8: with three input files, four threads and memory limit 0 MiB, every
emitted batch's result unit is spilled to disk (for every accountant state
and every reply-observation outcome), and the concatenation of the batch
frames' plaintexts is the tar stream of the three files in scanner order;
between 1 and 3 result units are produced. -/
theorem C8_three_files_limit_zero :
    ∀ (c : ZstdCodec) (hdr : String → Nat → List Nat)
      (metaLen : String → Nat) (content : String → List Nat)
      (temp_dir : String) (lvl : Int) (f1 f2 f3 : FileToCompress)
      (acct : Nat) (del : Bool),
      (∀ ib ∈ generateBatches metaLen [f1, f2, f3] 4,
        ∃ p : ScratchPath,
          (compress_batch_to_zstd_frame c hdr metaLen content temp_dir ib.2
              ib.1 lvl (limitBytes 0) acct del).result.data =
            CompressedDataLocation.Disk p) ∧
      ((generateBatches metaLen [f1, f2, f3] 4).map
          (fun ib => batchPlaintext hdr metaLen content ib.2.files)).flatten =
        batchPlaintext hdr metaLen content [f1, f2, f3] ∧
      1 ≤ (generateBatches metaLen [f1, f2, f3] 4).length ∧
      (generateBatches metaLen [f1, f2, f3] 4).length ≤ 3 := by
  intro c hdr metaLen content temp_dir lvl f1 f2 f3 acct del
  have hL : limitBytes 0 = 0 := rfl
  have hjoin := generateBatches_joinFiles metaLen [f1, f2, f3] 4
  refine ⟨?_, ?_, ?_, ?_⟩
  · intro ib hib
    by_cases hpos : 0 < ib.2.total_size
    · refine ⟨⟨temp_dir, ib.1⟩, ?_⟩
      rw [compress_eq_direct c hdr metaLen content temp_dir ib.2 ib.1 lvl
        (limitBytes 0) acct del (by omega)]
    · have hdirect : ¬ limitBytes 0 < ib.2.total_size := by omega
      have hfalse : (requestAllocation (limitBytes 0) acct
          (batchFrame c lvl hdr metaLen content ib.2).length).1 = false := by
        have hlen : 1 ≤ (batchFrame c lvl hdr metaLen content ib.2).length :=
          List.length_pos.mpr (c.encode_ne_nil _ _)
        unfold requestAllocation
        rw [if_neg (by omega)]
      refine ⟨⟨temp_dir, ib.1⟩, ?_⟩
      rw [compress_eq_denied c hdr metaLen content temp_dir ib.2 ib.1 lvl
        (limitBytes 0) acct del hdirect (by rw [hfalse, Bool.and_false])]
  · rw [flatten_batchPlaintext, hjoin]
  · have hne : generateBatches metaLen [f1, f2, f3] 4 ≠ [] := by
      intro h
      rw [h] at hjoin
      exact absurd hjoin.symm (by simp [joinFiles])
    exact List.length_pos.mpr hne
  · have hnonempty : ∀ ib ∈ generateBatches metaLen [f1, f2, f3] 4,
        ib.2.files ≠ [] := by
      intro ib hib
      exact (batchLoop_invariant
        (batchThreshold (totalUncompressedSize metaLen [f1, f2, f3]) 4)
        (fun f => metaLen f.src_path) (filesWithSize metaLen [f1, f2, f3])
        [] 0 0
        (by
          intro p hp
          simp only [filesWithSize, List.mem_map] at hp
          rcases hp with ⟨f, _, rfl⟩
          rfl)
        rfl (one_le_batchThreshold _ _) ib hib).1
    have := length_le_of_join_nonempty _ hnonempty
    rw [hjoin] at this
    simpa using this

/-- Witness for C8 at concrete inputs: three 300 MiB files produce three
batches of one file each; the first batch's result is on disk. -/
theorem C8_three_files_limit_zero_witness :
    (generateBatches (fun _ => 314572800)
        [⟨"/w/a", "w/a"⟩, ⟨"/w/b", "w/b"⟩, ⟨"/w/c", "w/c"⟩] 4).length = 3 ∧
    (∃ p : ScratchPath,
      (compress_batch_to_zstd_frame simpleCodec (fun _ _ => [])
          (fun _ => 314572800) (fun _ => []) "/tmp"
          ⟨[⟨"/w/a", "w/a"⟩], 314572800⟩ 0 3 (limitBytes 0) 0
          true).result.data =
        CompressedDataLocation.Disk p) := by
  constructor
  · decide
  · exact (C8_three_files_limit_zero simpleCodec (fun _ _ => [])
      (fun _ => 314572800) (fun _ => []) "/tmp" 3 ⟨"/w/a", "w/a"⟩
      ⟨"/w/b", "w/b"⟩ ⟨"/w/c", "w/c"⟩ 0 true).1
      (0, ⟨[⟨"/w/a", "w/a"⟩], 314572800⟩) (by decide)

/-- C5: with `is_bukkit = false` a directory is skipped by the traversal
exactly when (a) it is named DIM1 and the End is excluded, (b) it is named
DIM-1 and the Nether is excluded, or (c) its parent's basename equals
`world_name`, it is named regions/entities/poi, and the Overworld is
excluded; with `is_bukkit = true` no directory is pruned by name; and the
whole traversal coincides with the spec-worded pruning traversal, so a
skipped directory is never recursed into and none of its files are
archived. -/
theorem C5_prune_predicate :
    ∀ (args : ArchiveOptions) (parentName name : String),
      (args.is_bukkit = false →
        (skipDir args parentName name = true ↔
          ((name = "DIM1" ∧ args.include_end = false) ∨
            (name = "DIM-1" ∧ args.include_nether = false) ∨
            (parentName = args.world_name ∧
              (name = "regions" ∨ name = "entities" ∨ name = "poi") ∧
              args.include_overworld = false)))) ∧
      (args.is_bukkit = true → skipDir args parentName name = false) ∧
      (∀ (baseDirName basePath : String) (entries : List FsTree)
          (archiveRoot : String),
        collect_files_recursive args baseDirName basePath entries
            archiveRoot =
          spec_collect_files args baseDirName basePath entries
            archiveRoot) := by
  intro args parentName name
  refine ⟨?_, ?_, ?_⟩
  · intro hb
    simp only [skipDir, hb, Bool.not_false, Bool.true_and, Bool.or_eq_true,
      Bool.and_eq_true, Bool.not_eq_true', beq_iff_eq]
    tauto
  · intro hb
    simp [skipDir, hb]
  · intro baseDirName basePath entries archiveRoot
    unfold collect_files_recursive spec_collect_files
    exact scanLoop_congr (skipDir args) (spec_skip_dir args)
      (skipDir_eq_spec args) _

/-- Witness for C5 at concrete inputs: `DIM1` is skipped when the End is
excluded. -/
theorem C5_prune_predicate_witness :
    skipDir ⟨"world", true, false, true, 2, 3, false, 512⟩ "world" "DIM1" =
      true :=
  ((C5_prune_predicate ⟨"world", true, false, true, 2, 3, false, 512⟩
      "world" "DIM1").1 rfl).mpr (Or.inl ⟨rfl, rfl⟩)

/-- C9 counterexample: the claim says the sequential Zstandard path emits no
`StartCompression`, but for a one-file run with `threads = 1` the trace does
contain `StartCompression 1` — `generate_zstd` emits it before selecting the
mode. -/
theorem C9_counterexample :
    ProgressMessage.StartCompression 1 ∈
      generate_zstd_events (fun _ => 10) [⟨"/w/a", "w/a"⟩] 1 42 := by
  decide

/-- C9 (amended): both the sequential and the parallel Zstandard paths emit
`StartCompression`, exactly once, because `generate_zstd` sends it before
the mode decision; the renderer must tolerate it in either mode. -/
theorem C9_start_compression_both_modes :
    ∀ (metaLen : String → Nat) (allFiles : List FileToCompress)
      (threads finalSize : Nat),
      (generate_zstd_events metaLen allFiles threads finalSize).countP
          isStartCompression = 1 ∧
      ProgressMessage.StartCompression allFiles.length ∈
        generate_zstd_events metaLen allFiles threads finalSize := by
  intro metaLen allFiles threads finalSize
  have hscan : (scanPhaseEvents allFiles).countP isStartCompression = 0 := by
    rw [List.countP_eq_zero]
    intro a ha
    simp only [scanPhaseEvents, List.mem_cons, List.mem_map] at ha
    rcases ha with rfl | ⟨f, _, rfl⟩ <;> simp [isStartCompression]
  have hseq : ∀ fs : Nat,
      (sequentialModeEvents allFiles fs).countP isStartCompression = 0 := by
    intro fs
    rw [List.countP_eq_zero]
    intro a ha
    simp only [sequentialModeEvents, List.mem_cons, List.mem_append,
      List.mem_flatten, List.mem_map] at ha
    rcases ha with rfl | ⟨⟨l, ⟨f, _, rfl⟩, hl⟩ | ha⟩
    · simp [isStartCompression]
    · simp only [List.mem_cons] at hl
      rcases hl with rfl | rfl | rfl | h
      · simp [isStartCompression]
      · simp [isStartCompression]
      · simp [isStartCompression]
      · cases h
    · rcases ha with rfl | h
      · simp [isStartCompression]
      · cases h
  have hpar : ∀ (bs : List (Nat × BatchToCompress)) (fs : Nat),
      (parallelModeEvents threads bs fs).countP isStartCompression = 0 := by
    intro bs fs
    rw [List.countP_eq_zero]
    intro a ha
    simp only [parallelModeEvents, List.mem_append, List.mem_cons,
      List.mem_flatten, List.mem_map] at ha
    rcases ha with (⟨w, _, rfl⟩ | ⟨l, ⟨ib, _, rfl⟩, hl⟩) | rfl | ⟨ib, _, rfl⟩ | ha
    · simp [isStartCompression]
    · simp only [List.mem_flatten, List.mem_map] at hl
      rcases hl with ⟨l2, ⟨f, _, rfl⟩, hl2⟩
      simp only [List.mem_cons] at hl2
      rcases hl2 with rfl | rfl | h
      · simp [isStartCompression]
      · simp [isStartCompression]
      · cases h
    · simp [isStartCompression]
    · simp [isStartCompression]
    · rcases ha with rfl | h
      · simp [isStartCompression]
      · cases h
  constructor
  · rw [generate_zstd_events, List.countP_append, hscan, List.countP_cons]
    by_cases hth : threads = 1
    · rw [if_pos hth]
      rw [hseq finalSize]
      simp [isStartCompression]
    · rw [if_neg hth]
      rw [hpar _ finalSize]
      simp [isStartCompression]
  · rw [generate_zstd_events]
    exact List.mem_append_right _ (List.mem_cons_self _ _)

/-- Witness for C9's amended theorem at concrete inputs. -/
theorem C9_start_compression_both_modes_witness :
    (generate_zstd_events (fun _ => 10) [⟨"/w/a", "w/a"⟩] 1 42).countP
        isStartCompression = 1 ∧
    ProgressMessage.StartCompression 1 ∈
      generate_zstd_events (fun _ => 10) [⟨"/w/a", "w/a"⟩] 1 42 :=
  C9_start_compression_both_modes (fun _ => 10) [⟨"/w/a", "w/a"⟩] 1 42

/-- Witness for C6 at concrete inputs. -/
theorem C6_zstd_assembly_trailer_witness :
    WriteEvent.fsync ∈
      [WriteEvent.startWriting 0,
        WriteEvent.appendTrailer (trailerFrame simpleCodec 3),
        WriteEvent.fsync] :=
  (C6_zstd_assembly_trailer simpleCodec 3 [] [] (fun _ _ => [])
      (fun _ => 0) (fun _ => []) ⟨"world", true, true, true, 4, 3, false, 0⟩
      "/tmp" (fun _ => true)).2.2.1
    [WriteEvent.startWriting 0,
      WriteEvent.appendTrailer (trailerFrame simpleCodec 3),
      WriteEvent.fsync]
    [] (assembleOutput simpleCodec 3 [] []).length rfl

end Mwdh
